import Mathlib

/-!
Verification of the Layout Retry Orchestrator of `react-wordcloud`
(`src/index.tsx`), shallowly embedded in Lean 4.

Modelling conventions:
* JavaScript numbers are modelled as `ℚ` (the claims under study concern
  exact formulas such as `max(min * 0.95, 1)`, order facts and discrete
  angle sets, all of which are stated over the numeric literals appearing
  in the source).
* The external Layout Engine (`d3-cloud` via `createCloud`) is a black box:
  a run is parametrised by the sequence of engine results, one per attempt
  (`engine : ℕ → ℕ` giving the number of words the engine placed on each
  attempt), exactly as the spec treats it.
* The random source (`seedrandom`) is modelled as a stream `ℕ → ℚ` of draws
  together with a cursor; each call to `random()` reads the next element.
* `lodash.debounce` (trailing-edge, default options) and React's
  `useRef`/`useEffect` are modelled as small explicit state machines.
-/

namespace ReactWordcloud

/-- A word of the input list: display text and numeric weight
(`{ text: string, value: number }`). -/
structure Word where
  text : String
  value : ℚ
deriving DecidableEq, Repr

/-- `MAX_LAYOUT_ATTEMPTS = 10` from `src/index.tsx`. -/
def MAX_LAYOUT_ATTEMPTS : ℕ := 10

/-- `SHRINK_FACTOR = 0.95` from `src/index.tsx`, as an exact rational. -/
def SHRINK_FACTOR : ℚ := 95 / 100

/-- The merged options fields that the model needs
(`defaultOptions` in `src/index.tsx`). -/
structure Options where
  fontSizes : ℚ × ℚ
  rotationAngles : ℚ × ℚ
  padding : ℚ
  transitionDuration : ℚ
  renderDebounce : ℕ
  batchSize : ℕ
  deterministic : Bool
deriving DecidableEq, Repr

/-- `defaultOptions` of `src/index.tsx` (the fields kept by the model). -/
def defaultOptions : Options :=
  { fontSizes := (4, 32)
    rotationAngles := (-90, 90)
    padding := 1
    transitionDuration := 600
    renderDebounce := 100
    batchSize := 200
    deterministic := false }

/-! ### Word Selector

`src/index.tsx` lines 115-118:
```
const sortedWords = words
  .concat()
  .sort((x, y) => descending(x.value, y.value))
  .slice(0, maxWords);
```
`Array.prototype.sort` is a stable sort (ES2019); the comparator
`descending(x.value, y.value)` orders by `value` descending.  A stable sort
under comparator `c` keeps `x` before `y` whenever `c(x,y) <= 0`, i.e. when
`y.value <= x.value`; `mergeSort` with that Boolean relation is the stable
sort with exactly this contract. -/

/-- The comparator relation induced by `descending(x.value, y.value)`:
`x` may stay before `y` iff `y.value ≤ x.value`. -/
def wordLe (x y : Word) : Bool := decide (y.value ≤ x.value)

/-- `sortedWords`: copy, stable-sort by value descending, truncate to
`maxWords`. -/
def sortedWords (words : List Word) (maxWords : ℕ) : List Word :=
  ((words.mergeSort wordLe).take maxWords)

/-! ### Rotation Selector

`src/index.tsx` lines 110-113: when no custom `rotations` strategy is
configured, the default rotation is `() => (~~(random() * 6) - 3) * 30`.
For a draw `r ∈ [0,1)`, `r * 6 ∈ [0,6)` is non-negative, so the `~~`
truncation toward zero coincides with the floor. -/

/-- The default rotation formula applied to one random draw `r`. -/
def defaultRotation (r : ℚ) : ℤ := (⌊r * 6⌋ - 3) * 30

/-! ### Layout Retry Controller

`src/index.tsx` lines 141-184.  `draw(fontSizes, attempts = 1)` starts the
engine on the re-formatted words; `onDone(computedWords)` retries with
shrunk bounds while `sortedWords.length !== computedWords.length &&
attempts <= MAX_LAYOUT_ATTEMPTS`, warning once when
`attempts === MAX_LAYOUT_ATTEMPTS`, and otherwise hands `computedWords`
to `render`.  The run is parametrised by `engine : ℕ → ℕ`, the number of
words the Layout Engine reports placed on each attempt number. -/

/-- The shrunk bounds computed in `onDone` before the recursive `draw` call:
`minFontSize = Math.max(fontSizes[0] * SHRINK_FACTOR, 1)`,
`maxFontSize = Math.max(fontSizes[1] * SHRINK_FACTOR, minFontSize)`. -/
def shrinkBounds (fontSizes : ℚ × ℚ) : ℚ × ℚ :=
  let minFontSize := max (fontSizes.1 * SHRINK_FACTOR) 1
  let maxFontSize := max (fontSizes.2 * SHRINK_FACTOR) minFontSize
  (minFontSize, maxFontSize)

/-- The `console.warn` message emitted when `attempts === MAX_LAYOUT_ATTEMPTS`
and not all words were placed (`src/index.tsx` lines 157-162). -/
def layoutWarning (unplaced : ℕ) (attempts : ℕ) : String :=
  "Unable to layout " ++ toString unplaced ++ " word(s) after " ++
    toString attempts ++ " attempts.  Consider: (1) Increasing the " ++
    "container/component size. (2) Lowering the max font size. " ++
    "(3) Limiting the rotation angles."

/-- The observable outcome of one retry chain: which attempt's
`computedWords` were handed to the Renderer, the warnings emitted along
the way, and the font-size bounds used by each attempt in order. -/
structure RunResult where
  rendered : ℕ
  renderedAttempt : ℕ
  warnings : List String
  boundsList : List (ℚ × ℚ)
deriving DecidableEq, Repr

/-- `draw(fontSizes, attempts)` with the completion callback inlined:
accept when `engine attempts = sortedLen` or `attempts > MAX_LAYOUT_ATTEMPTS`,
otherwise warn (at attempt 10), shrink the bounds and recurse. -/
def draw (engine : ℕ → ℕ) (sortedLen : ℕ) (fontSizes : ℚ × ℚ)
    (attempts : ℕ) : RunResult :=
  let computed := engine attempts
  if h : sortedLen ≠ computed ∧ attempts ≤ MAX_LAYOUT_ATTEMPTS then
    let warn : List String :=
      if attempts = MAX_LAYOUT_ATTEMPTS then
        [layoutWarning (sortedLen - computed) attempts]
      else []
    let rest := draw engine sortedLen (shrinkBounds fontSizes) (attempts + 1)
    { rest with
      warnings := warn ++ rest.warnings
      boundsList := fontSizes :: rest.boundsList }
  else
    { rendered := computed
      renderedAttempt := attempts
      warnings := []
      boundsList := [fontSizes] }
termination_by MAX_LAYOUT_ATTEMPTS + 1 - attempts
decreasing_by
  simp only [MAX_LAYOUT_ATTEMPTS] at *
  omega

/-! ### Word Formatter with the threaded random source

`src/index.tsx` lines 106-137.  `random` is a stateful generator; each call
`random()` yields the next draw of a stream.  `formatWords(words, fontSizes)`
maps over `words`, calling `rotateWord()` (hence `random()`) once per word,
in index order.  The custom-strategy branch is not modelled (the claims
concern the default rotation); `getFontScale` lives in `src/utils` (not part
of the sources under study) and consumes no randomness, so it is carried as
an explicit function parameter. -/

/-- The stateful random source: a stream of draws and a cursor. -/
structure RandomState where
  stream : ℕ → ℚ
  cursor : ℕ

/-- A FormattedWord produced by `formatWords`. -/
structure FormattedWord where
  text : String
  value : ℚ
  padding : ℚ
  rotate : ℤ
  size : ℚ
deriving DecidableEq, Repr

/-- The `words.map(d => ({...d, rotate: rotateWord(), size: fontScale(d.value), ...}))`
body, threading the random source left to right (JS `map` invokes its
callback in index order). -/
def formatWordsGo (padding : ℚ) (scale : ℚ → ℚ) :
    List Word → RandomState → List FormattedWord × RandomState
  | [], rng => ([], rng)
  | w :: ws, rng =>
    let r := rng.stream rng.cursor
    let rest := formatWordsGo padding scale ws ⟨rng.stream, rng.cursor + 1⟩
    ({ text := w.text
       value := w.value
       padding := padding
       rotate := defaultRotation r
       size := scale w.value } :: rest.1,
     rest.2)

/-- `formatWords(words, fontSizes)`: build the font scale for the current
bounds, then map each word to a FormattedWord, drawing one rotation per
word from the random source. -/
def formatWords (fontScale : List Word → ℚ × ℚ → ℚ → ℚ) (padding : ℚ)
    (words : List Word) (fontSizes : ℚ × ℚ) (rng : RandomState) :
    List FormattedWord × RandomState :=
  formatWordsGo padding (fontScale words fontSizes) words rng

/-- Stream cursor at the start of attempt `k` (0-based): every earlier
attempt consumed one draw per word in `formatWords` plus `engineDraws j`
draws inside the Layout Engine (d3-cloud also calls `random()`). -/
def attemptCursor (n : ℕ) (engineDraws : ℕ → ℕ) : ℕ → ℕ
  | 0 => 0
  | k + 1 => attemptCursor n engineDraws k + n + engineDraws k

/-- The FormattedWord list built by `formatWords` for attempt `k` (0-based)
of one retry chain in which attempts `0..k-1` all retried: the bounds have
been shrunk `k` times and the random cursor has advanced past the draws of
the earlier attempts. -/
def attemptWords (fontScale : List Word → ℚ × ℚ → ℚ → ℚ) (padding : ℚ)
    (words : List Word) (fontSizes : ℚ × ℚ) (σ : ℕ → ℚ)
    (engineDraws : ℕ → ℕ) (k : ℕ) : List FormattedWord :=
  (formatWords fontScale padding words (shrinkBounds^[k] fontSizes)
    ⟨σ, attemptCursor words.length engineDraws k⟩).1

/-! ### Render Scheduler

`src/index.tsx` lines 82-207.  `reRender` is `useRef(debounce(body,
mergedOptions.renderDebounce))`; the effect calls
`reRender.current(selection, ...)` and returns its value as the React
cleanup.  `lodash.debounce` (default options) stores the latest arguments,
(re)arms a timer, and returns `result` — the return value of the *last
completed* invocation of `body` (`undefined` before the first one).  The
body starts the draw loop and returns `() => { if (layout) layout.stop(); }`.
Runs are numbered by body execution; `handle` is the cleanup the caller
currently holds. -/

/-- Events at the Render Scheduler boundary. -/
inductive SchedEvent where
  | effectRun (inputs : ℕ)
  | debounceFire
  | engineDone (computed : ℕ)
  | invokeHandle
deriving DecidableEq, Repr

/-- Scheduler state: the pending debounced call, the run counter, the run
whose layout is active, lodash's `result` slot, the cleanup held by the
caller, and the renders performed (run id, computed words). -/
structure SchedState where
  pending : Option ℕ
  runCount : ℕ
  activeLayout : Option ℕ
  lastResult : Option ℕ
  handle : Option ℕ
  renders : List (ℕ × ℕ)
deriving DecidableEq, Repr

/-- Initial scheduler state: nothing pending, no body executed. -/
def schedInit : SchedState :=
  { pending := none, runCount := 0, activeLayout := none,
    lastResult := none, handle := none, renders := [] }

/-- One scheduler step.
* `effectRun i` — the debounced function is called with fresh inputs: it
  stores them, arms the timer, and returns lodash's current `result`
  (the previous executed body's cleanup), which the caller now holds.
* `debounceFire` — the timer fires: the body runs with the stored inputs,
  starting a new layout (`draw`); the body's cleanup becomes `result`.
* `engineDone c` — the active layout (if any) completes and, accepted,
  hands its `computedWords` to `render`; a stopped layout never completes.
* `invokeHandle` — the caller invokes the cleanup it holds:
  `if (layout) layout.stop()` for the closed-over run; the debounce timer
  is not touched. -/
def schedStep (s : SchedState) : SchedEvent → SchedState
  | .effectRun i => { s with pending := some i, handle := s.lastResult }
  | .debounceFire =>
    match s.pending with
    | none => s
    | some _ =>
      { s with
        pending := none
        runCount := s.runCount + 1
        activeLayout := some s.runCount
        lastResult := some s.runCount }
  | .engineDone c =>
    match s.activeLayout with
    | none => s
    | some id =>
      { s with activeLayout := none, renders := s.renders ++ [(id, c)] }
  | .invokeHandle =>
    match s.handle with
    | none => s
    | some id =>
      if s.activeLayout = some id then { s with activeLayout := none } else s

/-- Run a list of scheduler events from a state. -/
def schedRunFrom (s : SchedState) (evs : List SchedEvent) : SchedState :=
  evs.foldl schedStep s

/-- Run a list of scheduler events from the initial state. -/
def schedRun (evs : List SchedEvent) : SchedState :=
  schedRunFrom schedInit evs

/-! ### Debounce coalescing (one quiet window)

The inputs of one debounced call of `reRender.current`
(`src/index.tsx` lines 198-205). -/

/-- One submitted input set of the pipeline. -/
structure PipelineInputs where
  options : Options
  callbacks : ℕ
  size : ℚ × ℚ
  words : List Word
  maxWords : ℕ
deriving DecidableEq, Repr

/-- Debouncer state over one window: the stored latest arguments and the
executions performed so far (with their inputs). -/
structure DebounceState where
  pending : Option PipelineInputs
  executed : List PipelineInputs
deriving DecidableEq, Repr

/-- A call of the debounced function: store the arguments, re-arm the timer
(superseding any pending call). -/
def debounceCall (s : DebounceState) (i : PipelineInputs) : DebounceState :=
  { s with pending := some i }

/-- The timer fires after the quiet period: execute once with the stored
latest arguments. -/
def debounceFlush (s : DebounceState) : DebounceState :=
  match s.pending with
  | some i => { pending := none, executed := s.executed ++ [i] }
  | none => s

/-- One debounce window: a burst of calls, then the quiet period elapses. -/
def debounceWindow (inputs : List PipelineInputs) : DebounceState :=
  debounceFlush (inputs.foldl debounceCall ⟨none, []⟩)

/-! ### `useRef`-fixed debounce interval

`src/index.tsx` lines 82-194: `const reRender = useRef(debounce(body,
mergedOptions.renderDebounce))`.  `useRef(v)` keeps the `v` of the first
render; every later render evaluates its argument but discards it. -/

/-- The debounced pipeline object, which records the `wait` interval that
`debounce` was constructed with. -/
structure DebouncedReRender where
  interval : ℕ
deriving DecidableEq, Repr

/-- Building the debounced pipeline from the merged options of a render:
`debounce(body, mergedOptions.renderDebounce)`. -/
def mkReRender (mergedOptions : Options) : DebouncedReRender :=
  { interval := mergedOptions.renderDebounce }

/-- The ref cell across a sequence of renders, each with its merged options:
`useRef` initialises on the first render and keeps that value afterwards. -/
def useRefReRender (renders : List Options) : Option DebouncedReRender :=
  renders.foldl (fun r opts => some (r.getD (mkReRender opts))) none

/-! ## Theorems -/

/-- C8: when no custom rotation strategy is configured, for every random
draw `r ∈ [0,1)` the default rotation angle `(⌊r * 6⌋ - 3) * 30` is one of
the six values `{-90, -60, -30, 0, 30, 60}`. -/
theorem defaultRotation_mem_six (r : ℚ) (h0 : 0 ≤ r) (h1 : r < 1) :
    defaultRotation r ∈ ([-90, -60, -30, 0, 30, 60] : List ℤ) := by
  have hlo : (0 : ℤ) ≤ ⌊r * 6⌋ := Int.floor_nonneg.mpr (by positivity)
  have hhi : ⌊r * 6⌋ < 6 := by
    have : r * 6 < ((6 : ℤ) : ℚ) := by push_cast; linarith
    exact Int.floor_lt.mpr this
  unfold defaultRotation
  interval_cases h : ⌊r * 6⌋ <;> simp

/-- Witness for C8 at the concrete draw `r = 1/2`. -/
theorem defaultRotation_mem_six_witness :
    (0 : ℚ) ≤ 1 / 2 ∧ (1 / 2 : ℚ) < 1 ∧
      defaultRotation (1 / 2) ∈ ([-90, -60, -30, 0, 30, 60] : List ℤ) :=
  ⟨by norm_num, by norm_num,
    defaultRotation_mem_six (1 / 2) (by norm_num) (by norm_num)⟩

/-- Once the `useRef` fold has a value, later renders do not replace it. -/
theorem foldl_useRef_some (d : DebouncedReRender) (rest : List Options) :
    rest.foldl (fun r opts => some (r.getD (mkReRender opts))) (some d) =
      some d := by
  induction rest with
  | nil => rfl
  | cons o tl ih => simpa [List.foldl_cons] using ih

/-- C10: the debounced pipeline is built once per component instance with
the `renderDebounce` of the first render's merged options; whatever
`renderDebounce` values later renders carry, the ref still holds the
debounced function constructed with the first render's interval. -/
theorem useRefReRender_fixed_interval (first : Options) (rest : List Options) :
    useRefReRender (first :: rest) =
      some { interval := first.renderDebounce } := by
  unfold useRefReRender
  rw [List.foldl_cons]
  exact foldl_useRef_some _ rest

/-- A burst of debounced calls executes nothing. -/
theorem foldl_debounceCall_executed (inputs : List PipelineInputs) :
    ∀ s : DebounceState,
      (inputs.foldl debounceCall s).executed = s.executed := by
  induction inputs with
  | nil => intro s; rfl
  | cons i tl ih => intro s; rw [List.foldl_cons, ih]; rfl

/-- A non-empty burst of debounced calls leaves exactly the last input
pending. -/
theorem foldl_debounceCall_pending (inputs : List PipelineInputs) :
    ∀ s : DebounceState, inputs ≠ [] →
      (inputs.foldl debounceCall s).pending = inputs.getLast? := by
  induction inputs with
  | nil => intro s h; exact absurd rfl h
  | cons i tl ih =>
    intro s _
    cases tl with
    | nil => rfl
    | cons j tl' =>
      rw [List.foldl_cons, ih (debounceCall s i) (by simp),
        List.getLast?_cons_cons]

/-- C9: when several input sets are submitted within one debounce window,
exactly one pipeline execution occurs and it uses the last submitted input
set; all earlier input sets of the window are discarded. -/
theorem debounce_coalesces_to_last (inputs : List PipelineInputs)
    (h : inputs ≠ []) :
    (debounceWindow inputs).executed = [inputs.getLast h] := by
  unfold debounceWindow debounceFlush
  rw [foldl_debounceCall_pending inputs _ h, List.getLast?_eq_getLast _ h]
  simp [foldl_debounceCall_executed]

/-- Witness for C9: two input sets in one window; only the second runs. -/
theorem debounce_coalesces_to_last_witness :
    ([⟨defaultOptions, 0, (300, 300), [], 10⟩,
      ⟨defaultOptions, 1, (300, 300), [], 20⟩] : List PipelineInputs) ≠ [] ∧
    (debounceWindow
        [⟨defaultOptions, 0, (300, 300), [], 10⟩,
         ⟨defaultOptions, 1, (300, 300), [], 20⟩]).executed =
      [⟨defaultOptions, 1, (300, 300), [], 20⟩] :=
  ⟨by simp,
    debounce_coalesces_to_last
      [⟨defaultOptions, 0, (300, 300), [], 10⟩,
       ⟨defaultOptions, 1, (300, 300), [], 20⟩] (by simp)⟩

/-- The sort comparator relation is transitive. -/
theorem wordLe_trans : ∀ a b c : Word, wordLe a b → wordLe b c → wordLe a c := by
  intro a b c hab hbc
  simp only [wordLe, decide_eq_true_eq] at *
  exact le_trans hbc hab

/-- The sort comparator relation is total. -/
theorem wordLe_total : ∀ a b : Word, wordLe a b || wordLe b a := by
  intro a b
  simpa [wordLe, Bool.or_eq_true, decide_eq_true_eq] using
    le_total b.value a.value

/-- Stability of the word sort: the subsequence of words holding any given
value is unchanged by the stable sort. -/
theorem filter_value_mergeSort (words : List Word) (v : ℚ) :
    (words.mergeSort wordLe).filter (fun w => decide (w.value = v)) =
      words.filter (fun w => decide (w.value = v)) := by
  set p : Word → Bool := fun w => decide (w.value = v) with hp
  have hpair : (words.filter p).Pairwise (wordLe · ·) := by
    apply List.pairwise_of_forall_mem_list
    intro a ha b hb
    have h1 : a.value = v := by
      simpa [hp] using (List.mem_filter.mp ha).2
    have h2 : b.value = v := by
      simpa [hp] using (List.mem_filter.mp hb).2
    simp [wordLe, h1, h2]
  have hsub : List.Sublist (words.filter p) (words.mergeSort wordLe) :=
    List.sublist_mergeSort wordLe_trans wordLe_total hpair
      (List.filter_sublist words)
  have hsub2 : List.Sublist (words.filter p)
      ((words.mergeSort wordLe).filter p) := by
    have h := hsub.filter p
    simpa [List.filter_filter] using h
  have hlen : ((words.mergeSort wordLe).filter p).length =
      (words.filter p).length :=
    ((words.mergeSort_perm wordLe).filter p).length_eq
  exact (hsub2.eq_of_length hlen.symm).symm

/-- C7: for every input word list and every `maxWords ≥ 0`, the Word
Selector returns a sequence of length `min(words.length, maxWords)`, sorted
by `value` descending, with ties keeping the original relative order (the
subsequence at any fixed value is a prefix of the input's subsequence at
that value), and an empty input yields an empty result.  (Non-mutation of
the input is inherent to the embedding: `sortedWords` is a pure function of
a copied list, as `words.concat()` is in the source.) -/
theorem sortedWords_spec (words : List Word) (maxWords : ℕ) :
    (sortedWords words maxWords).length = min words.length maxWords ∧
    (sortedWords words maxWords).Pairwise
      (fun x y => y.value ≤ x.value) ∧
    (∀ v : ℚ,
      (sortedWords words maxWords).filter (fun w => decide (w.value = v)) <+:
        words.filter (fun w => decide (w.value = v))) ∧
    sortedWords [] maxWords = [] := by
  refine ⟨?_, ?_, ?_, ?_⟩
  · simp [sortedWords, Nat.min_comm]
  · have hs : (words.mergeSort wordLe).Pairwise (wordLe · ·) :=
      List.sorted_mergeSort wordLe_trans wordLe_total words
    have ht : (sortedWords words maxWords).Pairwise (wordLe · ·) :=
      hs.sublist (List.take_sublist _ _)
    exact ht.imp (fun h => by simpa [wordLe] using h)
  · intro v
    refine ⟨((words.mergeSort wordLe).drop maxWords).filter
      (fun w => decide (w.value = v)), ?_⟩
    rw [sortedWords, ← List.filter_append, List.take_append_drop]
    exact filter_value_mergeSort words v
  · simp [sortedWords]

/-- Every retry chain records the bounds it starts from as the first
attempt's bounds. -/
theorem draw_boundsList_head (engine : ℕ → ℕ) (s : ℕ) (fs : ℚ × ℚ) (t : ℕ) :
    ((draw engine s fs t).boundsList).head? = some fs := by
  rw [draw]
  split <;> simp

/-- Past `MAX_LAYOUT_ATTEMPTS`, `draw` accepts unconditionally. -/
theorem draw_accept_of_gt (engine : ℕ → ℕ) (s : ℕ) (fs : ℚ × ℚ) (t : ℕ)
    (h : MAX_LAYOUT_ATTEMPTS < t) :
    draw engine s fs t =
      { rendered := engine t, renderedAttempt := t,
        warnings := [], boundsList := [fs] } := by
  rw [draw, dif_neg]
  rintro ⟨-, hle⟩
  omega

/-- On a retry, the bounds of the following attempt are the shrunk bounds. -/
theorem draw_boundsList_second (engine : ℕ → ℕ) (s t : ℕ) (b : ℚ × ℚ)
    (hne : s ≠ engine t) (hle : t ≤ MAX_LAYOUT_ATTEMPTS) :
    (draw engine s b t).boundsList[1]? = some (shrinkBounds b) := by
  rw [draw]
  rw [dif_pos ⟨hne, hle⟩]
  have h0 : (draw engine s (shrinkBounds b) (t + 1)).boundsList[0]? =
      some (shrinkBounds b) := by
    rw [← List.head?_eq_getElem?]
    exact draw_boundsList_head engine s (shrinkBounds b) (t + 1)
  simp only [List.getElem?_cons_succ, h0]

/-- C5: whenever a bounds pair `[min, max]` triggers a retry (not all words
placed, attempt within budget), the next attempt runs with exactly
`newMin = max(min * 0.95, 1)` and `newMax = max(max * 0.95, newMin)`. -/
theorem draw_retry_next_bounds (engine : ℕ → ℕ) (sortedLen t : ℕ)
    (b : ℚ × ℚ) (hne : sortedLen ≠ engine t)
    (hle : t ≤ MAX_LAYOUT_ATTEMPTS) :
    (draw engine sortedLen b t).boundsList[1]? =
      some (max (b.1 * 0.95) 1, max (b.2 * 0.95) (max (b.1 * 0.95) 1)) := by
  rw [draw_boundsList_second engine sortedLen t b hne hle]
  unfold shrinkBounds SHRINK_FACTOR
  norm_num

/-- Witness for C5: with bounds `[4, 32]`, an engine that places nothing,
and attempt 1, the second attempt's bounds are `[3.8, 30.4]`. -/
theorem draw_retry_next_bounds_witness :
    (1 ≠ (fun _ : ℕ => 0) 1) ∧ (1 ≤ MAX_LAYOUT_ATTEMPTS) ∧
    (draw (fun _ => 0) 1 ((4 : ℚ), (32 : ℚ)) 1).boundsList[1]? =
      some (max ((4 : ℚ) * 0.95) 1,
        max ((32 : ℚ) * 0.95) (max ((4 : ℚ) * 0.95) 1)) :=
  ⟨by decide, by decide,
    draw_retry_next_bounds (fun _ => 0) 1 1 (4, 32) (by decide) (by decide)⟩

/-- Behaviour of one whole retry chain started at attempt `t`: the accepted
attempt's `computedWords` are the rendered ones, the accepted attempt is
the first one satisfying the acceptance condition (all words placed or
attempt number beyond the budget), and it lies within `max t (budget+1)`.
Proved by downward induction on the remaining budget. -/
theorem draw_accept_aux (engine : ℕ → ℕ) (s : ℕ) :
    ∀ (n t : ℕ) (fs : ℚ × ℚ), MAX_LAYOUT_ATTEMPTS + 1 - t ≤ n →
      (draw engine s fs t).rendered =
          engine (draw engine s fs t).renderedAttempt ∧
      (engine (draw engine s fs t).renderedAttempt = s ∨
          MAX_LAYOUT_ATTEMPTS < (draw engine s fs t).renderedAttempt) ∧
      (∀ b, t ≤ b → b < (draw engine s fs t).renderedAttempt →
          engine b ≠ s ∧ b ≤ MAX_LAYOUT_ATTEMPTS) ∧
      t ≤ (draw engine s fs t).renderedAttempt ∧
      (draw engine s fs t).renderedAttempt ≤
          max t (MAX_LAYOUT_ATTEMPTS + 1) := by
  intro n
  induction n with
  | zero =>
    intro t fs ht
    have ht' : MAX_LAYOUT_ATTEMPTS < t := by omega
    rw [draw_accept_of_gt engine s fs t ht']
    dsimp only
    refine ⟨rfl, Or.inr ht', ?_, le_refl t, le_max_left _ _⟩
    intro b hb hb'
    omega
  | succ n ih =>
    intro t fs ht
    rw [draw]
    split
    case isTrue h =>
      obtain ⟨hne, hle⟩ := h
      dsimp only
      have ih' := ih (t + 1) (shrinkBounds fs) (by omega)
      refine ⟨ih'.1, ih'.2.1, ?_, ?_, ?_⟩
      · intro b hb hblt
        rcases Nat.eq_or_lt_of_le hb with rfl | hb'
        · exact ⟨fun hc => hne hc.symm, hle⟩
        · exact ih'.2.2.1 b hb' hblt
      · exact le_trans (Nat.le_succ t) ih'.2.2.2.1
      · have h2 := ih'.2.2.2.2
        have : max (t + 1) (MAX_LAYOUT_ATTEMPTS + 1) =
            MAX_LAYOUT_ATTEMPTS + 1 := by omega
        rw [this] at h2
        omega
    case isFalse h =>
      have h' : engine t = s ∨ MAX_LAYOUT_ATTEMPTS < t := by
        by_cases hs : engine t = s
        · exact Or.inl hs
        · right
          by_contra hmax
          push_neg at hmax
          exact h ⟨fun he => hs he.symm, hmax⟩
      dsimp only
      refine ⟨rfl, h', ?_, le_refl t, le_max_left _ _⟩
      intro b hb hb'
      omega

/-- C1: for every orchestration run and every sequence of Layout Engine
results, the attempt handed to the Renderer is exactly the first one with
all sorted words placed or attempt number `> MAX_LAYOUT_ATTEMPTS = 10`
(every earlier attempt was a retry: it had unplaced words and an attempt
number within the budget), and at most 10 attempts precede that forced
acceptance. -/
theorem draw_accepts_first_and_bounded (engine : ℕ → ℕ) (sortedLen : ℕ)
    (fs : ℚ × ℚ) :
    (draw engine sortedLen fs 1).rendered =
        engine (draw engine sortedLen fs 1).renderedAttempt ∧
    (engine (draw engine sortedLen fs 1).renderedAttempt = sortedLen ∨
        MAX_LAYOUT_ATTEMPTS < (draw engine sortedLen fs 1).renderedAttempt) ∧
    (∀ b, 1 ≤ b → b < (draw engine sortedLen fs 1).renderedAttempt →
        engine b ≠ sortedLen ∧ b ≤ MAX_LAYOUT_ATTEMPTS) ∧
    (draw engine sortedLen fs 1).renderedAttempt - 1 ≤
        MAX_LAYOUT_ATTEMPTS := by
  have h := draw_accept_aux engine sortedLen (MAX_LAYOUT_ATTEMPTS + 1) 1 fs
    (by omega)
  refine ⟨h.1, h.2.1, h.2.2.1, ?_⟩
  have h2 := h.2.2.2.2
  omega

/-- For bounds with `1 ≤ min ≤ max`, shrinking is non-increasing in both
components and preserves `1 ≤ min ≤ max`. -/
theorem shrinkBounds_props (b : ℚ × ℚ) (h1 : 1 ≤ b.1) (h2 : b.1 ≤ b.2) :
    (shrinkBounds b).1 ≤ b.1 ∧ (shrinkBounds b).2 ≤ b.2 ∧
    1 ≤ (shrinkBounds b).1 ∧ (shrinkBounds b).1 ≤ (shrinkBounds b).2 := by
  unfold shrinkBounds SHRINK_FACTOR
  refine ⟨?_, ?_, le_max_right _ _, le_max_right _ _⟩
  · apply max_le _ h1
    linarith
  · apply max_le
    · linarith
    · apply max_le <;> linarith

/-- The bounds recorded along a retry chain form a componentwise
non-increasing sequence staying in `1 ≤ min ≤ max`, provided the chain
starts there.  Downward induction on the remaining budget. -/
theorem draw_bounds_aux (engine : ℕ → ℕ) (s : ℕ) :
    ∀ (n t : ℕ) (fs : ℚ × ℚ), MAX_LAYOUT_ATTEMPTS + 1 - t ≤ n →
      1 ≤ fs.1 → fs.1 ≤ fs.2 →
      List.Chain' (fun p q => q.1 ≤ p.1 ∧ q.2 ≤ p.2)
        (draw engine s fs t).boundsList ∧
      ∀ p ∈ (draw engine s fs t).boundsList, 1 ≤ p.1 ∧ p.1 ≤ p.2 := by
  intro n
  induction n with
  | zero =>
    intro t fs ht h1 h2
    rw [draw_accept_of_gt engine s fs t (by omega)]
    dsimp only
    refine ⟨List.chain'_singleton fs, ?_⟩
    intro p hp
    rw [List.mem_singleton] at hp
    subst hp
    exact ⟨h1, h2⟩
  | succ n ih =>
    intro t fs ht h1 h2
    rw [draw]
    split
    case isTrue h =>
      dsimp only
      obtain ⟨hs1, hs2, hs3, hs4⟩ := shrinkBounds_props fs h1 h2
      have ih' := ih (t + 1) (shrinkBounds fs) (by omega) hs3 hs4
      constructor
      · rw [List.chain'_cons']
        refine ⟨?_, ih'.1⟩
        intro q hq
        rw [draw_boundsList_head engine s (shrinkBounds fs) (t + 1)] at hq
        rw [Option.mem_def, Option.some_inj] at hq
        subst hq
        exact ⟨hs1, hs2⟩
      · intro p hp
        rw [List.mem_cons] at hp
        rcases hp with rfl | hp
        · exact ⟨h1, h2⟩
        · exact ih'.2 p hp
    case isFalse h =>
      dsimp only
      refine ⟨List.chain'_singleton fs, ?_⟩
      intro p hp
      rw [List.mem_singleton] at hp
      subst hp
      exact ⟨h1, h2⟩

/-- C4 counterexample: the starting bounds `(1/2, 1/2)` satisfy the claim's
hypothesis (`min ≤ max`, both `> 0`), yet in the resulting retry chain the
second attempt's bounds `(1, 1)` strictly exceed the first attempt's
`(1/2, 1/2)` — the sequence is not non-increasing — and the first
attempt's bounds lie below 1. -/
theorem draw_bounds_counterexample :
    (0 : ℚ) < 1 / 2 ∧ ((1 : ℚ) / 2 ≤ 1 / 2) ∧
    (draw (fun _ => 0) 1 ((1 : ℚ) / 2, (1 : ℚ) / 2) 1).boundsList[0]? =
      some (1 / 2, 1 / 2) ∧
    (draw (fun _ => 0) 1 ((1 : ℚ) / 2, (1 : ℚ) / 2) 1).boundsList[1]? =
      some (1, 1) ∧
    ¬((1 : ℚ) ≤ 1 / 2) := by
  refine ⟨by norm_num, le_refl _, ?_, ?_, by norm_num⟩
  · rw [← List.head?_eq_getElem?]
    exact draw_boundsList_head (fun _ => 0) 1 (1 / 2, 1 / 2) 1
  · rw [draw_boundsList_second (fun _ => 0) 1 1 (1 / 2, 1 / 2)
      (by norm_num) (by norm_num [MAX_LAYOUT_ATTEMPTS])]
    unfold shrinkBounds SHRINK_FACTOR
    norm_num

/-- C4 (amended): for every starting bounds pair with
`1 ≤ fontSizes[0] ≤ fontSizes[1]`, the font-size bounds across successive
retry attempts are non-increasing in both components and never go below 1.
(As the counterexample shows, for starting values in `(0, 1)` the first
shrink *raises* the bound to the floor 1, so the claim's hypothesis
`both > 0` must be strengthened to `1 ≤ min`.) -/
theorem draw_bounds_monotone_amended (engine : ℕ → ℕ) (sortedLen : ℕ)
    (fs : ℚ × ℚ) (h1 : 1 ≤ fs.1) (h2 : fs.1 ≤ fs.2) :
    List.Chain' (fun p q => q.1 ≤ p.1 ∧ q.2 ≤ p.2)
      (draw engine sortedLen fs 1).boundsList ∧
    ∀ p ∈ (draw engine sortedLen fs 1).boundsList,
      1 ≤ p.1 ∧ 1 ≤ p.2 := by
  have h := draw_bounds_aux engine sortedLen (MAX_LAYOUT_ATTEMPTS + 1) 1 fs
    (by omega) h1 h2
  refine ⟨h.1, ?_⟩
  intro p hp
  obtain ⟨hp1, hp2⟩ := h.2 p hp
  exact ⟨hp1, le_trans hp1 hp2⟩

/-- Witness for the amended C4 at the default bounds `[4, 32]` and an
engine that never places all of one word. -/
theorem draw_bounds_monotone_amended_witness :
    (1 : ℚ) ≤ 4 ∧ (4 : ℚ) ≤ 32 ∧
    (List.Chain' (fun p q => q.1 ≤ p.1 ∧ q.2 ≤ p.2)
      (draw (fun _ => 0) 1 ((4 : ℚ), (32 : ℚ)) 1).boundsList ∧
    ∀ p ∈ (draw (fun _ => 0) 1 ((4 : ℚ), (32 : ℚ)) 1).boundsList,
      1 ≤ p.1 ∧ 1 ≤ p.2) :=
  ⟨by norm_num, by norm_num,
    draw_bounds_monotone_amended (fun _ => 0) 1 (4, 32)
      (by norm_num) (by norm_num)⟩

/-- At attempt 10 with unplaced words, `draw` warns once with the unplaced
count, performs one final (forced-accepted) attempt, and renders its
result. -/
theorem draw_at_budget (engine : ℕ → ℕ) (s : ℕ) (fs : ℚ × ℚ)
    (hne : engine MAX_LAYOUT_ATTEMPTS ≠ s) :
    (draw engine s fs MAX_LAYOUT_ATTEMPTS).warnings =
      [layoutWarning (s - engine MAX_LAYOUT_ATTEMPTS)
        MAX_LAYOUT_ATTEMPTS] ∧
    (draw engine s fs MAX_LAYOUT_ATTEMPTS).renderedAttempt =
      MAX_LAYOUT_ATTEMPTS + 1 ∧
    (draw engine s fs MAX_LAYOUT_ATTEMPTS).rendered =
      engine (MAX_LAYOUT_ATTEMPTS + 1) := by
  rw [draw]
  rw [dif_pos ⟨fun he => hne he.symm, le_refl _⟩]
  rw [if_pos rfl]
  rw [draw_accept_of_gt engine s (shrinkBounds fs) (MAX_LAYOUT_ATTEMPTS + 1)
    (Nat.lt_succ_self _)]
  dsimp only
  exact ⟨rfl, rfl, rfl⟩

/-- A chain whose engine results never place all words from attempt `t` up
to the budget warns exactly once and renders the forced 11th attempt. -/
theorem draw_exhausted_aux (engine : ℕ → ℕ) (s : ℕ) :
    ∀ (n t : ℕ) (fs : ℚ × ℚ), MAX_LAYOUT_ATTEMPTS - t ≤ n →
      1 ≤ t → t ≤ MAX_LAYOUT_ATTEMPTS →
      (∀ k, t ≤ k → k ≤ MAX_LAYOUT_ATTEMPTS → engine k ≠ s) →
      (draw engine s fs t).warnings =
        [layoutWarning (s - engine MAX_LAYOUT_ATTEMPTS)
          MAX_LAYOUT_ATTEMPTS] ∧
      (draw engine s fs t).renderedAttempt = MAX_LAYOUT_ATTEMPTS + 1 ∧
      (draw engine s fs t).rendered = engine (MAX_LAYOUT_ATTEMPTS + 1) := by
  intro n
  induction n with
  | zero =>
    intro t fs ht h1t ht10 hex
    have heq : t = MAX_LAYOUT_ATTEMPTS := by omega
    subst heq
    exact draw_at_budget engine s fs (hex _ le_rfl le_rfl)
  | succ n ih =>
    intro t fs ht h1t ht10 hex
    by_cases heq : t = MAX_LAYOUT_ATTEMPTS
    · subst heq
      exact draw_at_budget engine s fs (hex _ le_rfl le_rfl)
    · have htlt : t < MAX_LAYOUT_ATTEMPTS := lt_of_le_of_ne ht10 heq
      rw [draw]
      rw [dif_pos ⟨fun he => hex t le_rfl ht10 he.symm, ht10⟩]
      rw [if_neg heq]
      dsimp only
      have ih' := ih (t + 1) (shrinkBounds fs) (by omega) (by omega)
        (by omega) (fun k hk hk' => hex k (by omega) hk')
      simpa using ih'

/-- C6: exhausting the retry budget is not an error: when the engine never
places all sorted words through attempt 10, the warning diagnostic is
emitted exactly once — carrying the number of unplaced words and the three
standard remedies — and the Renderer is still invoked, with the word subset
placed by the final (11th, forced-accepted) attempt.  (`draw` is a total
function of the engine results: no failure outcome exists.) -/
theorem draw_exhausted_warns_once (engine : ℕ → ℕ) (sortedLen : ℕ)
    (fs : ℚ × ℚ)
    (hex : ∀ k, 1 ≤ k → k ≤ MAX_LAYOUT_ATTEMPTS → engine k ≠ sortedLen) :
    (draw engine sortedLen fs 1).warnings =
      [layoutWarning (sortedLen - engine MAX_LAYOUT_ATTEMPTS)
        MAX_LAYOUT_ATTEMPTS] ∧
    (draw engine sortedLen fs 1).renderedAttempt =
      MAX_LAYOUT_ATTEMPTS + 1 ∧
    (draw engine sortedLen fs 1).rendered =
      engine (MAX_LAYOUT_ATTEMPTS + 1) :=
  draw_exhausted_aux engine sortedLen MAX_LAYOUT_ATTEMPTS 1 fs
    (by omega) le_rfl (by norm_num [MAX_LAYOUT_ATTEMPTS]) hex

/-- Witness for C6: two words, an engine that never places any; the chain
warns once about 2 unplaced words and renders attempt 11's result. -/
theorem draw_exhausted_warns_once_witness :
    (∀ k, 1 ≤ k → k ≤ MAX_LAYOUT_ATTEMPTS → (fun _ : ℕ => 0) k ≠ 2) ∧
    (draw (fun _ => 0) 2 ((4 : ℚ), (32 : ℚ)) 1).warnings =
      [layoutWarning 2 MAX_LAYOUT_ATTEMPTS] ∧
    (draw (fun _ => 0) 2 ((4 : ℚ), (32 : ℚ)) 1).rendered = 0 :=
  ⟨fun k _ _ => by simp,
    (draw_exhausted_warns_once (fun _ => 0) 2 (4, 32)
      (fun k _ _ => by simp)).1,
    (draw_exhausted_warns_once (fun _ => 0) 2 (4, 32)
      (fun k _ _ => by simp)).2.2⟩

/-- Each formatted word's rotation is the default rotation applied to the
random draw at the word's index offset from the current cursor: one fresh
draw per word, consumed in order. -/
theorem formatWordsGo_rotate (padding : ℚ) (scale : ℚ → ℚ) :
    ∀ (ws : List Word) (σ : ℕ → ℚ) (c i : ℕ), i < ws.length →
      ((formatWordsGo padding scale ws ⟨σ, c⟩).1.map
          (fun w => w.rotate))[i]? =
        some (defaultRotation (σ (c + i))) := by
  intro ws
  induction ws with
  | nil =>
    intro σ c i h
    simp at h
  | cons w tl ih =>
    intro σ c i h
    cases i with
    | zero => simp [formatWordsGo]
    | succ i =>
      have hi : i < tl.length := by simpa using h
      have harith : c + 1 + i = c + (i + 1) := by omega
      simp only [formatWordsGo, List.map_cons, List.getElem?_cons_succ]
      rw [ih σ (c + 1) i hi, harith]

/-- C2 (amended): rotations are recomputed on every retry.  Re-formatting
in attempt `k` (0-based) draws one fresh value per word from the random
source: word `i`'s rotation equals the default rotation applied to the
stream draw at position `attemptCursor + i` of that attempt — not the
rotation drawn for it in the first attempt.  Equal rotations across
attempts occur only when the freshly drawn values happen to map to the
same angle. -/
theorem attemptWords_rotations_fresh
    (fontScale : List Word → ℚ × ℚ → ℚ → ℚ) (padding : ℚ)
    (words : List Word) (fontSizes : ℚ × ℚ) (σ : ℕ → ℚ)
    (engineDraws : ℕ → ℕ) (k i : ℕ) (h : i < words.length) :
    ((attemptWords fontScale padding words fontSizes σ engineDraws k).map
        (fun w => w.rotate))[i]? =
      some (defaultRotation
        (σ (attemptCursor words.length engineDraws k + i))) := by
  unfold attemptWords formatWords
  exact formatWordsGo_rotate padding _ words σ _ i h

/-- Witness for the amended C2: one word, second attempt (`k = 1`). -/
theorem attemptWords_rotations_fresh_witness :
    0 < ([⟨"a", 1⟩] : List Word).length ∧
    ((attemptWords (fun _ _ _ => 0) 1 [⟨"a", 1⟩] (4, 32)
        (fun n => if n = 0 then 0 else 5 / 6) (fun _ => 0) 1).map
        (fun w => w.rotate))[0]? =
      some (defaultRotation
        ((fun n => if n = 0 then (0 : ℚ) else 5 / 6)
          (attemptCursor ([⟨"a", 1⟩] : List Word).length (fun _ => 0) 1
            + 0))) :=
  ⟨by decide,
    attemptWords_rotations_fresh (fun _ _ _ => 0) 1 [⟨"a", 1⟩] (4, 32)
      (fun n => if n = 0 then 0 else 5 / 6) (fun _ => 0) 1 0 (by decide)⟩

/-- C2 counterexample: with the stream `0, 5/6, 5/6, …` and an engine that
consumes no draws, the single word's rotation is `-90` in the first attempt
but `60` in the second — re-formatting with shrunk bounds does recompute
the rotation assignment. -/
theorem rotation_differs_across_attempts :
    ((attemptWords (fun _ _ _ => 0) 1 [⟨"a", 1⟩] (4, 32)
        (fun n => if n = 0 then 0 else 5 / 6) (fun _ => 0) 0).map
        (fun w => w.rotate)) = [-90] ∧
    ((attemptWords (fun _ _ _ => 0) 1 [⟨"a", 1⟩] (4, 32)
        (fun n => if n = 0 then 0 else 5 / 6) (fun _ => 0) 1).map
        (fun w => w.rotate)) = [60] ∧
    (-90 : ℤ) ≠ 60 := by
  refine ⟨?_, ?_, by decide⟩ <;>
    · simp only [attemptWords, formatWords, formatWordsGo, attemptCursor,
        defaultRotation, List.map_cons, List.map_nil, List.length_cons,
        List.length_nil]
      norm_num

/-- A scheduler state with no active layout performs no render as long as
the debounce timer does not fire: new layout runs start only at
`debounceFire`. -/
theorem schedRunFrom_no_fire (evs : List SchedEvent) :
    ∀ s : SchedState, s.activeLayout = none →
      SchedEvent.debounceFire ∉ evs →
      (schedRunFrom s evs).renders = s.renders ∧
      (schedRunFrom s evs).activeLayout = none := by
  induction evs with
  | nil =>
    intro s h _
    exact ⟨rfl, h⟩
  | cons e tl ih =>
    intro s h hn
    have hne : e ≠ SchedEvent.debounceFire := fun he =>
      hn (he ▸ List.mem_cons_self e tl)
    have hstep : (schedStep s e).renders = s.renders ∧
        (schedStep s e).activeLayout = none := by
      cases e with
      | effectRun i => exact ⟨rfl, h⟩
      | debounceFire => exact absurd rfl hne
      | engineDone c => simp [schedStep, h]
      | invokeHandle =>
        cases hh : s.handle with
        | none => simp [schedStep, hh, h]
        | some id => simp [schedStep, hh, h]
    have htl := ih (schedStep s e) hstep.2
      (fun hm => hn (List.mem_cons_of_mem e hm))
    rw [schedRunFrom, List.foldl_cons]
    exact ⟨htl.1.trans hstep.1, htl.2⟩

/-- C3 (amended): the cancellation handle the caller holds is the cleanup
of the most recently executed pipeline body, `() => layout.stop()`.  When
it refers to the currently active layout, invoking it stops that layout,
and no render of that run can occur afterwards (while no new debounced
execution fires).  It does *not* cancel a pending debounced execution:
the debounce timer and its stored inputs are untouched. -/
theorem invokeHandle_stops_active_layout (s : SchedState) (id : ℕ)
    (evs : List SchedEvent) (h1 : s.handle = some id)
    (h2 : s.activeLayout = some id)
    (h3 : SchedEvent.debounceFire ∉ evs) :
    (schedStep s SchedEvent.invokeHandle).pending = s.pending ∧
    (schedStep s SchedEvent.invokeHandle).activeLayout = none ∧
    (schedRunFrom (schedStep s SchedEvent.invokeHandle) evs).renders =
      s.renders := by
  have hstop : schedStep s SchedEvent.invokeHandle =
      { s with activeLayout := none } := by
    simp [schedStep, h1, h2]
  rw [hstop]
  exact ⟨rfl, rfl, (schedRunFrom_no_fire evs _ rfl h3).1⟩

/-- Witness for the amended C3: a state with run 0's layout active and its
cleanup held; after invoking the handle, an engine completion and a fresh
effect run produce no render. -/
theorem invokeHandle_stops_active_layout_witness :
    (⟨some 9, 1, some 0, some 0, some 0, []⟩ : SchedState).handle =
      some 0 ∧
    (⟨some 9, 1, some 0, some 0, some 0, []⟩ : SchedState).activeLayout =
      some 0 ∧
    SchedEvent.debounceFire ∉
      [SchedEvent.engineDone 3, SchedEvent.effectRun 2] ∧
    (schedRunFrom
        (schedStep (⟨some 9, 1, some 0, some 0, some 0, []⟩ : SchedState)
          SchedEvent.invokeHandle)
        [SchedEvent.engineDone 3, SchedEvent.effectRun 2]).renders = [] :=
  ⟨rfl, rfl, by decide,
    (invokeHandle_stops_active_layout
      ⟨some 9, 1, some 0, some 0, some 0, []⟩ 0
      [SchedEvent.engineDone 3, SchedEvent.effectRun 2]
      rfl rfl (by decide)).2.2⟩

/-- C3 counterexample: the caller invokes the cancellation handle returned
by the latest effect run while a debounced execution is pending and not
yet fired (the handle is lodash's `result` — here `undefined`, as no body
has executed).  The pending execution is not cancelled: it fires, and the
Renderer is invoked for that run. -/
theorem cancellation_counterexample :
    (schedStep (schedStep schedInit (SchedEvent.effectRun 1))
        SchedEvent.invokeHandle).pending = some 1 ∧
    (schedRun [SchedEvent.effectRun 1, SchedEvent.invokeHandle,
        SchedEvent.debounceFire, SchedEvent.engineDone 5]).renders =
      [(0, 5)] := by
  decide

end ReactWordcloud
